import Mathlib

/-!
Shallow embedding of the dolmen markup-tree builder and serializer
(src/lib.rs, src/tags.rs, src/attributes.rs).

The Rust code is trait-based: `Tag` implementors carry a `TAG_NAME`
constant plus ordered `attributes` and `children` vectors, and a blanket
`Base`/`NodeBase` impl renders them.  The concrete catalog is `span`,
`div`, `html` (all with `FlowElement` children and `DefaultAttribute`
attributes) plus the `Text` leaf.  Attributes are `class`, `id` (via the
generic `Attribute`/`AttributeImpl` name-value impl) and the composite
`data` attribute backed by a `HashMap`.

We model the tree as one inductive `Node` over the catalog, the `HashMap`
of the `data` attribute as a list of entries (its iteration order is
unspecified in the source, so the list order stands for one arbitrary
iteration order), and the trait memberships (`FlowElement`) as boolean
predicates mirroring exactly which `impl` blocks exist in the source.
-/

/-- The concrete tag catalog: `make_tag!(span, …)`, `make_tag!(div, …)`,
`make_tag!(html, …)` in src/tags.rs. -/
inductive Tag where
  | span
  | div
  | html
deriving DecidableEq, Repr

/-- The `TAG_NAME` associated constant: `stringify!($name)` in `make_tag!`. -/
def Tag.TAG_NAME : Tag → String
  | .span => "span"
  | .div => "div"
  | .html => "html"

/-- The attribute kinds of the catalog (src/attributes.rs): `class` and
`id` each carry one string value; the composite `data` attribute carries a
`HashMap<String, String>`, modelled as a list of key-value entries in an
arbitrary iteration order. -/
inductive Attr where
  | «class» (value : String)
  | id (value : String)
  | data (entries : List (String × String))
deriving DecidableEq, Repr

/-- The blanket `impl Base for T where T: Attribute` in src/attributes.rs:
`format!(r#"{}="{}""#, Self::ATTRIBUTE_NAME, self.value())`. -/
def attrBase (name value : String) : String :=
  name ++ "=\"" ++ value ++ "\""

/-- Rendering of one attribute.  `class` and `id` go through the generic
name-value impl with `ATTRIBUTE_NAME` `"class"` and `"id"`; the `data`
attribute has its own `impl Base` that maps each entry to
`format!(r#"data-{}="{}""#, name, value)` and joins with `" "`. -/
def Attr.to_string : Attr → String
  | .«class» value => attrBase "class" value
  | .id value => attrBase "id" value
  | .data entries =>
      String.intercalate " "
        (entries.map fun kv => "data-" ++ kv.1 ++ "=\"" ++ kv.2 ++ "\"")

/-- A node of the markup tree: an element of the catalog with its ordered
attribute and child vectors, or a `Text` leaf (src/tags.rs `Text(pub
String)`). -/
inductive Node where
  | element (tag : Tag) (attributes : List Attr) (children : List Node)
  | text (content : String)

/-- The attributes string computed by the blanket `impl Base for T where
T: Tag`: `self.attributes().iter().map(|ref attribute| format!(" {}",
attribute.to_string())).collect::<String>()`. -/
def attributesString (attrs : List Attr) : String :=
  String.join (attrs.map fun a => " " ++ a.to_string)

mutual

/-- The renderer: blanket `impl Base for T where T: Tag` in src/tags.rs
(identical in src/lib.rs).  If `children.len() == 0` it produces
`format!("<{}{} />", TAG_NAME, attributes)`, otherwise
`format!("<{0}{2}>{1}</{0}>", TAG_NAME, childrenString, attributes)`;
`Text` renders to its content (`self.0.clone()`). -/
def Node.to_string : Node → String
  | .text content => content
  | .element tag attrs children =>
      let attributes := attributesString attrs
      if children.length = 0 then
        "<" ++ tag.TAG_NAME ++ attributes ++ " />"
      else
        "<" ++ tag.TAG_NAME ++ attributes ++ ">" ++ Node.renderList children
          ++ "</" ++ tag.TAG_NAME ++ ">"

/-- The `children.iter().map(|ref child| child.to_string())
.collect::<String>()` part of the renderer: concatenation of the
children's renderings in order, with no separator. -/
def Node.renderList : List Node → String
  | [] => ""
  | child :: rest => child.to_string ++ Node.renderList rest

end

/-- The capability trait `FlowElement` from src/tags.rs.  The source has
`impl FlowElement for span::Element`, `impl FlowElement for div::Element`
and `impl FlowElement for Text` — and no such impl for `html::Element`. -/
def FlowElement : Node → Bool
  | .element .span _ _ => true
  | .element .div _ _ => true
  | .element .html _ _ => false
  | .text _ => true

/-- Whether a node is an `html` element. -/
def isHtmlElement : Node → Bool
  | .element .html _ _ => true
  | _ => false

mutual

/-- The typing discipline of the catalog: every catalog element kind
declares `type Child = FlowElement` (children are
`Vec<Box<dyn FlowElement>>`), so a tree is constructible in the source
exactly when every child of every element, recursively, implements
`FlowElement`. -/
def Node.wellFormed : Node → Bool
  | .text _ => true
  | .element _ _ children => Node.listWellFormed children

/-- All nodes of the list implement `FlowElement` and are themselves
well formed. -/
def Node.listWellFormed : List Node → Bool
  | [] => true
  | child :: rest => (FlowElement child && child.wellFormed) && Node.listWellFormed rest

end

mutual

/-- Height of the tree: a text leaf has depth 0, an element is one more
than the maximal depth of its children. -/
def Node.depth : Node → Nat
  | .text _ => 0
  | .element _ _ children => 1 + Node.listDepth children

/-- Maximal depth of a list of nodes. -/
def Node.listDepth : List Node → Nat
  | [] => 0
  | child :: rest => max child.depth (Node.listDepth rest)

end

/-- Fuel-indexed renderer: each recursive step into the children consumes
one unit of fuel and returns `none` when the fuel runs out.  Used to state
that the recursion of the renderer descends strictly into the children and
terminates on every finite tree. -/
def Node.toStringFuel : Nat → Node → Option String
  | 0, _ => none
  | _ + 1, .text content => some content
  | fuel + 1, .element tag attrs children =>
      match children.mapM (Node.toStringFuel fuel) with
      | none => none
      | some rendered =>
          some (if children.length = 0 then
                  "<" ++ tag.TAG_NAME ++ attributesString attrs ++ " />"
                else
                  "<" ++ tag.TAG_NAME ++ attributesString attrs ++ ">"
                    ++ String.join rendered ++ "</" ++ tag.TAG_NAME ++ ">")

/-- The attributes string as the spec words it: one leading space, then
the attribute's rendering, for each attribute in insertion order,
concatenated with no other separator. -/
def attributesStringSpec : List Attr → String
  | [] => ""
  | a :: rest => (" " ++ a.to_string) ++ attributesStringSpec rest

theorem foldlAppend (l : List String) (x : String) :
    l.foldl (fun r s => r ++ s) x = x ++ l.foldl (fun r s => r ++ s) "" := by
  induction l generalizing x with
  | nil => simp [List.foldl]
  | cons a l ih =>
      simp only [List.foldl]
      rw [ih (x ++ a), ih ("" ++ a), String.empty_append, String.append_assoc]

theorem stringJoin_cons (s : String) (l : List String) :
    String.join (s :: l) = s ++ String.join l := by
  show List.foldl (fun r t => r ++ t) "" (s :: l) = _
  simp only [List.foldl]
  rw [foldlAppend l ("" ++ s), String.empty_append]
  rfl

theorem renderList_eq_join (cs : List Node) :
    Node.renderList cs = String.join (cs.map Node.to_string) := by
  induction cs with
  | nil => rfl
  | cons c rest ih => rw [Node.renderList, ih, List.map_cons, stringJoin_cons]

theorem attributesString_eq_spec (attrs : List Attr) :
    attributesString attrs = attributesStringSpec attrs := by
  induction attrs with
  | nil => rfl
  | cons a rest ih =>
      show String.join ((a :: rest).map fun x => " " ++ x.to_string) = _
      rw [List.map_cons, stringJoin_cons, attributesStringSpec]
      exact congrArg (fun s => (" " ++ a.to_string) ++ s) ih

theorem listFuel (fuel : Nat)
    (hnode : ∀ n : Node, n.depth < fuel → Node.toStringFuel fuel n = some n.to_string) :
    ∀ cs : List Node, Node.listDepth cs < fuel →
      cs.mapM (Node.toStringFuel fuel) = some (cs.map Node.to_string) := by
  intro cs
  induction cs with
  | nil => intro _; rfl
  | cons c rest ih =>
      intro h
      rw [Node.listDepth] at h
      obtain ⟨hd, ht⟩ := max_lt_iff.mp h
      rw [List.mapM_cons, hnode c hd, ih ht, List.map_cons]
      rfl

theorem flow_not_html (c : Node) (h : FlowElement c = true) : isHtmlElement c = false := by
  match c with
  | .text _ => rfl
  | .element .span _ _ => rfl
  | .element .div _ _ => rfl
  | .element .html _ _ => exact absurd h (by simp [FlowElement])

/-- C1: for every element node whose children sequence is empty, `render`
produces exactly `<` ++ tagName ++ attributesString ++ ` />` — the
self-closing form with no closing tag — for every attribute list,
including the empty one. -/
theorem render_empty_children_self_closing (tag : Tag) (attrs : List Attr) :
    Node.to_string (.element tag attrs []) =
      "<" ++ tag.TAG_NAME ++ attributesString attrs ++ " />" := by
  simp [Node.to_string]

/-- C2: for every element node with one or more children, `render`
produces exactly `<` ++ tagName ++ attributesString ++ `>`, then the
renderings of all children concatenated in construction order with no
separator, then `</` ++ tagName ++ `>`. -/
theorem render_nonempty_children (tag : Tag) (attrs : List Attr) (c : Node) (cs : List Node) :
    Node.to_string (.element tag attrs (c :: cs)) =
      "<" ++ tag.TAG_NAME ++ attributesString attrs ++ ">"
        ++ String.join ((c :: cs).map Node.to_string)
        ++ "</" ++ tag.TAG_NAME ++ ">" := by
  simp [Node.to_string, renderList_eq_join]

/-- C3: the attributes string used in rendering any element node is the
concatenation, in insertion order, of one leading space followed by each
attribute's rendering, with no other separator (`attributesStringSpec` is
that spec-worded concatenation), for every number of attributes. -/
theorem attributesString_insertion_order (tag : Tag) (attrs : List Attr) (children : List Node) :
    attributesString attrs = attributesStringSpec attrs ∧
    Node.to_string (.element tag attrs children) =
      (if children.length = 0 then
        "<" ++ tag.TAG_NAME ++ attributesStringSpec attrs ++ " />"
      else
        "<" ++ tag.TAG_NAME ++ attributesStringSpec attrs ++ ">"
          ++ Node.renderList children ++ "</" ++ tag.TAG_NAME ++ ">") := by
  refine ⟨attributesString_eq_spec attrs, ?_⟩
  rw [← attributesString_eq_spec]
  simp [Node.to_string]

/-- C4: a single-valued attribute renders as the attribute name, `="`,
the stored value verbatim with no escaping, and a closing `"`; the two
concrete kinds render the literal names `class` and `id`. -/
theorem attr_render_name_value (v : String) :
    Attr.to_string (.«class» v) = "class=\"" ++ v ++ "\"" ∧
    Attr.to_string (.id v) = "id=\"" ++ v ++ "\"" :=
  ⟨rfl, rfl⟩

/-- C5: the composite `data` attribute renders one `data-<key>="<value>"`
fact per entry of its backing mapping, joined with a single space; a `div`
with no children and one such attribute holding the single entry
`foo:"bar"` renders as `<div data-foo="bar" />`. -/
theorem data_attr_render (entries : List (String × String)) :
    Attr.to_string (.data entries) =
      String.intercalate " "
        (entries.map fun kv => "data-" ++ kv.1 ++ "=\"" ++ kv.2 ++ "\"") ∧
    Node.to_string (.element .div [.data [("foo", "bar")]] []) = "<div data-foo=\"bar\" />" := by
  refine ⟨rfl, ?_⟩
  simp only [Node.to_string, attributesString]
  rfl

/-- C6: a text node renders to its stored content string verbatim, with
no escaping and no added markup. -/
theorem text_render_verbatim (content : String) :
    Node.to_string (.text content) = content := by
  simp [Node.to_string]

/-- C7: `render` is a pure, deterministic function of the tree — on equal
unmutated trees it returns identical strings. -/
theorem render_deterministic (a b : Node) (h : a = b) :
    a.to_string = b.to_string :=
  congrArg Node.to_string h

theorem render_deterministic_witness :
    (Node.text "x" = Node.text "x") ∧
      (Node.text "x").to_string = (Node.text "x").to_string :=
  ⟨rfl, render_deterministic (Node.text "x") (Node.text "x") rfl⟩

/-- C8: rendering terminates on every finite tree — the recursion
descends strictly into the children, so any fuel exceeding the tree depth
suffices for the fuel-indexed renderer to return the renderer's result. -/
theorem render_terminates (fuel : Nat) (n : Node) (h : n.depth < fuel) :
    Node.toStringFuel fuel n = some n.to_string := by
  induction fuel generalizing n with
  | zero => omega
  | succ f ih =>
      match n with
      | .text content => simp [Node.toStringFuel, Node.to_string]
      | .element tag attrs children =>
          have hl : Node.listDepth children < f := by
            rw [Node.depth] at h; omega
          have hm := listFuel f ih children hl
          simp only [Node.toStringFuel, hm, Node.to_string, renderList_eq_join]

theorem render_terminates_witness :
    (Node.element .div [] [.text "hi"]).depth < 2 ∧
      Node.toStringFuel 2 (.element .div [] [.text "hi"]) =
        some (Node.to_string (.element .div [] [.text "hi"])) :=
  ⟨by simp [Node.depth, Node.listDepth],
    render_terminates 2 (.element .div [] [.text "hi"])
      (by simp [Node.depth, Node.listDepth])⟩

/-- C9: the `html` element kind does not carry the `FlowElement`
capability (span, div and Text do), so in any well-formed tree an `html`
element never appears among the children of any catalog element. -/
theorem html_never_child :
    (∀ (attrs : List Attr) (cs : List Node), FlowElement (.element .html attrs cs) = false) ∧
    (∀ (tag : Tag) (attrs : List Attr) (cs : List Node) (c : Node),
      Node.wellFormed (.element tag attrs cs) = true → c ∈ cs → isHtmlElement c = false) := by
  refine ⟨fun _ _ => rfl, fun tag attrs cs c hwf hc => ?_⟩
  rw [Node.wellFormed] at hwf
  induction cs with
  | nil => cases hc
  | cons c₀ rest ih =>
      rw [Node.listWellFormed, Bool.and_eq_true, Bool.and_eq_true] at hwf
      cases hc with
      | head => exact flow_not_html c hwf.1.1
      | tail _ hmem => exact ih hwf.2 hmem

theorem html_never_child_witness :
    Node.wellFormed (.element .div [] [.text "a"]) = true ∧
      (Node.text "a") ∈ [Node.text "a"] ∧
      isHtmlElement (Node.text "a") = false :=
  ⟨by simp [Node.wellFormed, Node.listWellFormed, FlowElement],
    List.mem_singleton.mpr rfl,
    html_never_child.2 .div [] [Node.text "a"] (Node.text "a")
      (by simp [Node.wellFormed, Node.listWellFormed, FlowElement])
      (List.mem_singleton.mpr rfl)⟩

/-- C10: the composite `data` attribute with an empty backing mapping
renders to the empty string, yet the element renderer still prefixes it
with one space, so a `div` with no children and exactly one such
attribute renders as `<div  />` with two consecutive spaces. -/
theorem empty_data_attr_double_space :
    Attr.to_string (.data []) = "" ∧
    Node.to_string (.element .div [.data []] []) = "<div  />" := by
  refine ⟨rfl, ?_⟩
  simp only [Node.to_string, attributesString]
  rfl
